import Mathlib

/-!
Shallow embedding of the fact-extraction and aggregation pipeline of the
scanned repository (src/src/scan.js, src/src/index.js, src/unnamed/part_000).

The repository scans a source tree of PHP and JS/TS files, extracts one
"definition record" per PHP class (resp. per JS/TS file), stores the records
in a JavaScript `Map` keyed by qualified name (resp. file path), caches the
map to disk as JSON, and renders aggregate views (domain buckets, a
namespace-sorted listing).

Embedding decisions, per the source:
  * The tree-sitter parse/query engine is an external capability
    (`captures(tree) -> [{name, node}]`), so a scanned file is modelled by
    its capture list (`ScannedFile.parseResult`); `none` models a `parse`
    call that throws.
  * A JavaScript `Map` is modelled as an association list in insertion
    order; `Map.set` updates an existing key in place and otherwise appends
    (`mapSet`), `Map.get` is `mapGet`, `[...m.entries()]` is the list itself.
  * `JSON.stringify` / `JSON.parse` on the cache envelope are modelled as the
    identity transport on the entries list: every field of a record is a
    boolean, a string, `null`, or `undefined`, and each survives the JSON
    round trip observably (an `undefined` field is dropped by `stringify`
    and reads back as `undefined` after `parse`).
  * `undefined` and `null` are distinct JavaScript values (and distinct
    `Map` keys); the `domain` field can hold either, so it is modelled by
    `DomainVal` with three constructors.
  * The fire-and-forget asynchronous reads of `scanFiles` are sequentialised
    (the single shared parser makes the parse/extract phase sequential).
-/

namespace SwScan

/-- The JavaScript value stored in a record's `domain` field: `undefined`
(PHP extractor, no `Package` attribute), `null` (frontend extractor, no
`@sw-package` comment), or a string. -/
inductive DomainVal where
  | undef : DomainVal
  | null : DomainVal
  | str : String → DomainVal
deriving DecidableEq, Repr

/-- One definition record, as built by `queryClassDefinitions` /
`queryFrontendDefinitions` in src/src/scan.js (second revision, the one with
`isFinal`). `nsName` embeds the `namespace` field (a Lean keyword);
`isFinal = none` embeds JavaScript `null` (frontend records). -/
structure ClassInfo where
  isInternal : Bool
  isFinal : Option Bool
  nsName : Option String
  className : Option String
  fileName : String
  domain : DomainVal
deriving DecidableEq, Repr

/-- The Fact Store: a JavaScript `Map<string, ClassInfo>` in insertion
order. -/
abbrev Store := List (String × ClassInfo)

/-- One named capture produced by the (external) tree-sitter query engine:
`{name, node.text}`. -/
structure Capture where
  name : String
  text : String
deriving DecidableEq, Repr

/-- JavaScript `Map.prototype.set`: replace the value of an existing key in
place (keeping its position in iteration order), otherwise append. -/
def mapSet : Store → String → ClassInfo → Store
  | [], k, v => [(k, v)]
  | (k', v') :: rest, k, v =>
    if k' = k then (k, v) :: rest else (k', v') :: mapSet rest k v

/-- JavaScript `Map.prototype.get` (`none` embeds `undefined`). -/
def mapGet : Store → String → Option ClassInfo
  | [], _ => none
  | (k', v) :: rest, k => if k' = k then some v else mapGet rest k

/-- The key list of a store, in iteration order. -/
def storeKeys (m : Store) : List String := m.map Prod.fst

/-- The `Map` representation invariant: no key occurs twice. -/
def nodupKeys (m : Store) : Prop := (storeKeys m).Nodup

instance (m : Store) : Decidable (nodupKeys m) := by
  unfold nodupKeys; infer_instance

/-- JavaScript `hay.includes(needle)` on the underlying character lists. -/
def charsInclude (needle : List Char) : List Char → Bool
  | [] => needle.isEmpty
  | c :: cs => needle.isPrefixOf (c :: cs) || charsInclude needle cs

/-- JavaScript `s.includes(sub)`. -/
def strIncludes (s sub : String) : Bool := charsInclude sub.toList s.toList

/-- `queryCaptures.find(c => c.name === nm)`. -/
def findCapture (nm : String) (caps : List Capture) : Option Capture :=
  caps.find? (fun c => c.name == nm)

/-- The PHP extractor `queryClassDefinitions` (src/src/scan.js:273-294).
Reads the capture multiset of one compilation unit; requires a non-falsy
namespace text and class-name text (JavaScript `!namespace || !className`:
`undefined` or the empty string bail out) and then inserts one record under
`` `${namespace}\\${className}` ``. `filePath` is received but unused, as in
the source. -/
def queryClassDefinitions (caps : List Capture) (globPath _filePath : String)
    (resultMap : Store) : Store :=
  let isFinalKeyword := (findCapture "finalkeyword" caps).isSome
  let pkg := findCapture "package" caps
  let comments := caps.filter (fun c => c.name == "comment")
  let isInternal := comments.any (fun c => strIncludes c.text "@internal")
  let isFinalComment := comments.any (fun c => strIncludes c.text "@final")
  match findCapture "namespace" caps, findCapture "classname" caps with
  | some nc, some cc =>
    if nc.text = "" ∨ cc.text = "" then resultMap
    else
      mapSet resultMap (nc.text ++ "\\" ++ cc.text)
        { isInternal := isInternal
          isFinal := some (isFinalKeyword || isFinalComment)
          nsName := some nc.text
          className := some cc.text
          fileName := globPath
          domain := match pkg with
            | some p => DomainVal.str p.text
            | none => DomainVal.undef }
  | _, _ => resultMap

/-- Character class of the domain-token regex `[a-zA-Z-@]`. -/
def isDomainChar (c : Char) : Bool := c.isAlpha || c == '-' || c == '@'

/-- The literal part of the regex `/@sw-package ([a-zA-Z-@]+)/`. -/
def swPkgLit : List Char := "@sw-package ".toList

/-- Left-to-right regex scan of `/@sw-package ([a-zA-Z-@]+)/`: at each
position, match the literal and then a maximal non-empty run of class
characters; otherwise advance one character. -/
def swPkgScan : List Char → Option (List Char)
  | [] => none
  | c :: cs =>
    if swPkgLit.isPrefixOf (c :: cs) then
      let grp := ((c :: cs).drop swPkgLit.length).takeWhile isDomainChar
      if grp.isEmpty then swPkgScan cs else some grp
    else swPkgScan cs

/-- JavaScript `text.match(/@sw-package ([a-zA-Z-@]+)/)?.[1]`. -/
def matchSwPackage (s : String) : Option String :=
  (swPkgScan s.toList).map String.mk

/-- The JS/TS extractor `queryFrontendDefinitions` (src/src/scan.js:296-317).
Always inserts exactly one record, keyed by `filePath`, with
`fileName: globPath`; `domain` is group 1 of the first top-level comment
matching the `@sw-package` regex, else `null` (the trailing `|| null`). -/
def queryFrontendDefinitions (caps : List Capture) (globPath filePath : String)
    (resultMap : Store) : Store :=
  let comments := caps.filter (fun c => c.name == "comment")
  let isInternal := comments.any
    (fun c => strIncludes c.text "@internal" || strIncludes c.text "@private")
  let domain := match comments.findSome? (fun c => matchSwPackage c.text) with
    | some s => if s = "" then DomainVal.null else DomainVal.str s
    | none => DomainVal.null
  mapSet resultMap filePath
    { isInternal := isInternal
      isFinal := none
      nsName := none
      className := none
      fileName := globPath
      domain := domain }

/-- One enumerated file as it reaches the scan callback: `globPath` is the
scan-relative path `p` yielded by the glob stream, `fullPath` is
`path.join(dir, p)`, `ext` is `path.extname(filePath)` (both path operations
are external platform capabilities), `readOk = false` models a failing
`fs.readFile` (logged and skipped), and `parseResult` is the capture list of
the parsed tree, `none` modelling a `parser.parse` call that throws. -/
structure ScannedFile where
  globPath : String
  fullPath : String
  ext : String
  readOk : Bool
  parseResult : Option (List Capture)
deriving DecidableEq, Repr

/-- Outcome of `scan` (src/src/scan.js:345-379): either the completed store
with the two file counters, or `process.exit(code)` after logging the
offending path from the catch block. -/
inductive ScanOutcome where
  | ok : Store → Nat → Nat → ScanOutcome
  | fatal : String → Nat → ScanOutcome
deriving DecidableEq, Repr

/-- The sequentialised scan loop: skip unreadable files (read errors are
logged and skipped), dispatch `.php` to the class extractor and `.js`/`.ts`
to the frontend extractor, and abort the whole run with exit code 1 on the
first parse failure. -/
def scanGo : List ScannedFile → Store → Nat → Nat → ScanOutcome
  | [], store, php, fe => ScanOutcome.ok store php fe
  | f :: rest, store, php, fe =>
    if f.readOk = false then scanGo rest store php fe
    else if f.ext = ".php" then
      match f.parseResult with
      | none => ScanOutcome.fatal f.fullPath 1
      | some caps =>
        scanGo rest (queryClassDefinitions caps f.globPath f.fullPath store) (php + 1) fe
    else if f.ext = ".js" ∨ f.ext = ".ts" then
      match f.parseResult with
      | none => ScanOutcome.fatal f.fullPath 1
      | some caps =>
        scanGo rest (queryFrontendDefinitions caps f.globPath f.fullPath store) php (fe + 1)
    else scanGo rest store php fe

/-- `scan(pathToScan)` over the enumerated files. -/
def scan (files : List ScannedFile) : ScanOutcome := scanGo files [] 0 0

/-- A file that the scan loop passes over without aborting: either its read
failed (skipped), or its extension is unrecognized (skipped), or it parsed. -/
def survivesScan (g : ScannedFile) : Prop :=
  g.readOk = true → (g.ext = ".php" ∨ g.ext = ".js" ∨ g.ext = ".ts") →
    g.parseResult ≠ none

instance (g : ScannedFile) : Decidable (survivesScan g) := by
  unfold survivesScan; infer_instance

/-- `path.join(dir, p)` for the shapes that occur here (no `..` segments). -/
def joinPath (dir p : String) : String :=
  if dir = "" ∨ dir = "." then p
  else if dir.toList.getLast? = some '/' then dir ++ p else dir ++ "/" ++ p

/-- The serialized cache envelope: the store's entries as an ordered list of
key/value pairs (`Array.from(classDefinitions.entries())`). -/
abbrev Envelope := List (String × ClassInfo)

/-- `saveCache` (src/src/scan.js:396-401): serialize the entries array. -/
def saveCache (classDefinitions : Store) : Envelope := classDefinitions

/-- `new Map(entries)`: insert every pair in order. -/
def newMapOfEntries (e : Envelope) : Store :=
  e.foldl (fun acc p => mapSet acc p.1 p.2) []

/-- The state of the fixed cache path `./out/scan-cache.json`: `none` = no
file (`readFileSync` throws), `some none` = present but the content does not
parse back to an envelope (`JSON.parse` or `new Map` throws), `some (some e)`
= present and parseable. -/
structure FileSys where
  cacheFile : Option (Option Envelope)
deriving DecidableEq

/-- `loadCache` (src/src/scan.js:383-394): any throw is caught and yields
`null`; success rebuilds the map from the envelope's entries. -/
def loadCache (fsys : FileSys) : Option Store :=
  match fsys.cacheFile with
  | some (some env) => some (newMapOfEntries env)
  | _ => none

/-- Observable outcome of one `getClassData` run: the returned store (`none`
if the process exited), the exit code if any, whether a scan ran, whether
`saveCache` ran, and how many source files were read. -/
structure GetClassDataResult where
  result : Option Store
  exitCode : Option Nat
  didScan : Bool
  didSave : Bool
  filesRead : Nat
deriving DecidableEq, Repr

/-- `getClassData` (src/src/scan.js:407-414): a loaded cache is returned
directly (no scan, no save, no source-file reads); otherwise scan and, on
success, save. -/
def getClassData (fsys : FileSys) (files : List ScannedFile) : GetClassDataResult :=
  match loadCache fsys with
  | some store =>
    { result := some store, exitCode := none, didScan := false
      didSave := false, filesRead := 0 }
  | none =>
    match scan files with
    | ScanOutcome.ok store _ _ =>
      { result := some store, exitCode := none, didScan := true
        didSave := true, filesRead := files.length }
    | ScanOutcome.fatal _ code =>
      { result := none, exitCode := some code, didScan := true
        didSave := false, filesRead := files.length }

/-- The render-time labelling `domain || 'unknown'` of src/src/index.js:
both `undefined` and `null` (and the empty string) are falsy and display as
"unknown". -/
def domainLabel : DomainVal → String
  | DomainVal.str s => if s = "" then "unknown" else s
  | _ => "unknown"

/-- One step of the `reduce` of src/src/index.js:429-436:
`if (!acc.has(d)) acc.set(d, []); acc.get(d).push(k)` — buckets are keyed by
the raw `domain` value, appear in first-occurrence order, and collect the
store keys in iteration order. -/
def pushBucket : List (DomainVal × List String) → DomainVal → String →
    List (DomainVal × List String)
  | [], d, k => [(d, [k])]
  | (d', ks) :: rest, d, k =>
    if d' = d then (d', ks ++ [k]) :: rest else (d', ks) :: pushBucket rest d k

/-- The whole `reduce` over the store's entries (src/src/index.js:429-436).
Note the reduce destructures each entry as `[filename, classInfo]`, so the
pushed "filename" is in fact the store key. -/
def groupByDomain (m : Store) : List (DomainVal × List String) :=
  m.foldl (fun acc p => pushBucket acc p.2.domain p.1) []

/-- Stable insertion of `x` into `l`: `le y x` means the comparator ruled
`c(y, x) ≤ 0`, i.e. `y` may stay in front of `x`; `x` lands after every such
prefix element, which is exactly the stability contract of
`Array.prototype.sort`. -/
def insertStable {α : Type} (le : α → α → Bool) (x : α) : List α → List α
  | [] => [x]
  | y :: ys => if le y x then y :: insertStable le x ys else x :: y :: ys

/-- Model of JavaScript's stable `Array.prototype.sort(c)`, as a stable
insertion sort driven by `le a b = (c(a, b) ≤ 0)`. -/
def sortBy {α : Type} (le : α → α → Bool) (l : List α) : List α :=
  l.foldl (fun acc x => insertStable le x acc) []

/-- The bucket comparator `(a, b) => b[1].length - a[1].length`
(src/src/index.js:437), as the relation "`a` may stay before `b`":
`b[1].length - a[1].length ≤ 0` iff `b.2.length ≤ a.2.length`. -/
def bucketLe (a b : DomainVal × List String) : Bool :=
  b.2.length ≤ a.2.length

/-- `domainBuckets` (src/src/index.js:429-437): group by raw domain value,
then sort by descending bucket size. -/
def domainBuckets (m : Store) : List (DomainVal × List String) :=
  sortBy bucketLe (groupByDomain m)

/-- Value of a digit string. -/
def digitsVal (cs : List Char) : Nat :=
  cs.foldl (fun n c => n * 10 + (c.toNat - 48)) 0

/-- ECMAScript `ToNumber` on a string, restricted to the shapes relevant
here: the empty string is `0`, an optionally negated decimal-digit string is
its value, and everything else (in particular every namespace containing a
letter or a backslash) is `NaN`, modelled as `none`. -/
def strToNumber (s : String) : Option Int :=
  match s.toList with
  | [] => some 0
  | '-' :: rest =>
    if rest.isEmpty then none
    else if rest.all Char.isDigit then some (-(digitsVal rest : Int)) else none
  | cs => if cs.all Char.isDigit then some ((digitsVal cs : Int)) else none

/-- `ToNumber` of a record's `namespace` field: JavaScript `null` converts
to `+0`. -/
def nsToNumber : Option String → Option Int
  | none => some 0
  | some s => strToNumber s

/-- JavaScript subtraction with `NaN` propagation. -/
def subNaN : Option Int → Option Int → Option Int
  | some x, some y => some (x - y)
  | _, _ => none

/-- The effective value ECMAScript `SortCompare` derives from the comparator
`(a, b) => b[1].namespace - a[1].namespace` (src/src/index.js:427): a `NaN`
comparator result is replaced by `+0`. -/
def nsCompare (a b : String × ClassInfo) : Int :=
  (subNaN (nsToNumber b.2.nsName) (nsToNumber a.2.nsName)).getD 0

/-- `classesSortedByNamespace` (src/src/index.js:427): the entries array
sorted with the namespace-subtraction comparator. -/
def classesSortedByNamespace (m : Store) : List (String × ClassInfo) :=
  sortBy (fun a b => decide (nsCompare a b ≤ 0)) m

/-! ### Concrete example inputs -/

/-- A small well-formed Fact Store with one PHP record and one frontend
record. -/
def exStoreCache : Store :=
  [("App\\Core\\Kernel",
    ⟨true, some true, some "App\\Core", some "Kernel", "Kernel.php",
      DomainVal.str "framework"⟩),
   ("src/app.js", ⟨false, none, none, none, "src/app.js", DomainVal.null⟩)]

/-- A cache file holding the serialized form of `exStoreCache`. -/
def exFileSysHit : FileSys := ⟨some (some (saveCache exStoreCache))⟩

/-- A PHP file whose unit declares `namespace App\Core`, an `@internal`
comment, and `class Kernel` without a `Package` attribute. -/
def exPhpFile : ScannedFile :=
  ⟨"Kernel.php", "/repo/Kernel.php", ".php", true,
    some [⟨"namespace", "App\\Core"⟩, ⟨"comment", "/** @internal */"⟩,
      ⟨"classname", "Kernel"⟩]⟩

/-- A capture multiset with a class name but no namespace capture. -/
def exCapsNoNs : List Capture :=
  [⟨"comment", "/** @internal */"⟩, ⟨"classname", "Helper"⟩]

/-- A capture multiset with namespace, class name and a `Package`
attribute argument. -/
def exCapsPkg : List Capture :=
  [⟨"namespace", "App\\Svc"⟩, ⟨"name", "Package"⟩, ⟨"package", "checkout"⟩,
    ⟨"classname", "Order"⟩]

/-- A capture multiset with namespace, class name, and an `@final` comment
but no structural `final` keyword capture. -/
def exCapsFinal : List Capture :=
  [⟨"namespace", "App\\Svc"⟩, ⟨"comment", "/** @final */"⟩,
    ⟨"classname", "Order"⟩]

/-- The top-level comment captures of a frontend file whose second comment
carries an `@sw-package` marker. -/
def exFrontCaps : List Capture :=
  [⟨"comment", "// header"⟩, ⟨"comment", "/* @sw-package storefront */"⟩]

/-- That frontend file, enumerated under scan root `/repo` as glob path
`app.js`. -/
def exFrontFile : ScannedFile :=
  ⟨"app.js", joinPath "/repo" "app.js", ".js", true, some exFrontCaps⟩

/-- A `.ts` file whose parse throws. -/
def exBadTsFile : ScannedFile := ⟨"broken.ts", "/repo/broken.ts", ".ts", true, none⟩

/-- A PHP record without a `Package` attribute (`domain` is `undefined`). -/
def exPhpNoPkgInfo : ClassInfo :=
  ⟨false, some false, some "Foo", some "Bar", "Foo/Bar.php", DomainVal.undef⟩

/-- A frontend record without an `@sw-package` marker (`domain` is `null`). -/
def exFrontNoPkgInfo : ClassInfo :=
  ⟨false, none, none, none, "app.js", DomainVal.null⟩

/-- A store holding one domain-less record of each dialect. -/
def exStoreMixed : Store :=
  [("Foo\\Bar", exPhpNoPkgInfo), ("/r/app.js", exFrontNoPkgInfo)]

/-- A record in namespace `Beta`. -/
def exInfoBeta : ClassInfo :=
  ⟨false, some false, some "Beta", some "X", "Beta/X.php", DomainVal.undef⟩

/-- A record in namespace `Alpha`. -/
def exInfoAlpha : ClassInfo :=
  ⟨false, some false, some "Alpha", some "Y", "Alpha/Y.php", DomainVal.undef⟩

/-- A store whose insertion order (`Beta` before `Alpha`) disagrees with
lexical namespace order. -/
def exStoreBA : Store :=
  [("Beta\\X", exInfoBeta), ("Alpha\\Y", exInfoAlpha)]

/-! ### Laws of the `Map` model -/

theorem mapGet_mapSet_self (m : Store) (k : String) (v : ClassInfo) :
    mapGet (mapSet m k v) k = some v := by
  induction m with
  | nil => simp [mapSet, mapGet]
  | cons p rest ih =>
    obtain ⟨k', v'⟩ := p
    by_cases h : k' = k <;> simp [mapSet, mapGet, h, ih]

theorem mapGet_mapSet_ne (m : Store) (k k' : String) (v : ClassInfo)
    (h : k' ≠ k) : mapGet (mapSet m k v) k' = mapGet m k' := by
  induction m with
  | nil => simp [mapSet, mapGet, Ne.symm h]
  | cons p rest ih =>
    obtain ⟨k'', v''⟩ := p
    by_cases h2 : k'' = k
    · subst h2
      simp [mapSet, mapGet, Ne.symm h]
    · by_cases h3 : k'' = k'
      · subst h3
        simp [mapSet, mapGet, h2]
      · simp [mapSet, mapGet, h2, h3, ih]

theorem mapSet_mapSet_same (m : Store) (k : String) (a b : ClassInfo) :
    mapSet (mapSet m k a) k b = mapSet m k b := by
  induction m with
  | nil => simp [mapSet]
  | cons p rest ih =>
    obtain ⟨k', v'⟩ := p
    by_cases h : k' = k <;> simp [mapSet, h, ih]

theorem storeKeys_cons (k : String) (v : ClassInfo) (m : Store) :
    storeKeys ((k, v) :: m) = k :: storeKeys m := rfl

theorem storeKeys_snoc (m : Store) (k : String) (v : ClassInfo) :
    storeKeys (m ++ [(k, v)]) = storeKeys m ++ [k] := by
  simp [storeKeys]

theorem storeKeys_mapSet_of_mem (m : Store) (k : String) (v : ClassInfo)
    (h : k ∈ storeKeys m) : storeKeys (mapSet m k v) = storeKeys m := by
  induction m with
  | nil => simp [storeKeys] at h
  | cons p rest ih =>
    obtain ⟨k', v'⟩ := p
    by_cases hk : k' = k
    · subst hk
      simp [mapSet, storeKeys_cons]
    · have h2 : k ∈ storeKeys rest := by
        rcases List.mem_cons.mp (storeKeys_cons k' v' rest ▸ h) with e | hm
        · exact absurd e.symm hk
        · exact hm
      simp [mapSet, hk, storeKeys_cons, ih h2]

theorem mapSet_eq_append (m : Store) (k : String) (v : ClassInfo)
    (h : k ∉ storeKeys m) : mapSet m k v = m ++ [(k, v)] := by
  induction m with
  | nil => simp [mapSet]
  | cons p rest ih =>
    obtain ⟨k', v'⟩ := p
    have h1 : k ≠ k' := fun e => h (e ▸ List.mem_cons_self _ _)
    have h2 : k ∉ storeKeys rest :=
      fun hm => h (storeKeys_cons k' v' rest ▸ List.mem_cons_of_mem _ hm)
    have h1' : ¬(k' = k) := fun e => h1 e.symm
    simp [mapSet, h1', ih h2]

theorem nodupKeys_mapSet (m : Store) (k : String) (v : ClassInfo)
    (h : nodupKeys m) : nodupKeys (mapSet m k v) := by
  by_cases hm : k ∈ storeKeys m
  · unfold nodupKeys
    rw [storeKeys_mapSet_of_mem m k v hm]
    exact h
  · unfold nodupKeys
    rw [mapSet_eq_append m k v hm, storeKeys_snoc, List.nodup_append]
    refine ⟨h, List.nodup_singleton _, ?_⟩
    intro a ha hb
    rw [List.mem_singleton] at hb
    subst hb
    exact hm ha

theorem mapGet_eq_none_iff (m : Store) (k : String) :
    mapGet m k = none ↔ k ∉ storeKeys m := by
  induction m with
  | nil => simp [mapGet, storeKeys]
  | cons p rest ih =>
    obtain ⟨k', v'⟩ := p
    by_cases h : k' = k
    · subst h
      constructor
      · intro he
        simp [mapGet] at he
      · intro hn
        exact absurd (storeKeys_cons k' v' rest ▸ List.mem_cons_self k' _) hn
    · have hstep : mapGet ((k', v') :: rest) k = mapGet rest k := by
        simp [mapGet, h]
      rw [hstep, ih, storeKeys_cons]
      constructor
      · intro hn hmem
        rcases List.mem_cons.mp hmem with e | hm
        · exact h e.symm
        · exact hn hm
      · intro hn hm
        exact hn (List.mem_cons_of_mem _ hm)

theorem length_mapSet_of_not_mem (m : Store) (k : String) (v : ClassInfo)
    (h : mapGet m k = none) : (mapSet m k v).length = m.length + 1 := by
  rw [mapSet_eq_append m k v ((mapGet_eq_none_iff m k).mp h)]
  simp

theorem foldl_mapSet_eq_append (m : Store) :
    ∀ acc : Store, (storeKeys acc ++ storeKeys m).Nodup →
      m.foldl (fun a p => mapSet a p.1 p.2) acc = acc ++ m := by
  induction m with
  | nil => simp
  | cons p rest ih =>
    intro acc h
    obtain ⟨k, v⟩ := p
    have h' : (storeKeys acc ++ (k :: storeKeys rest)).Nodup := by
      rw [storeKeys_cons] at h
      exact h
    have hk : k ∉ storeKeys acc := by
      intro hmem
      exact (List.nodup_append.mp h').2.2 hmem (List.mem_cons_self _ _)
    have hstep : mapSet acc k v = acc ++ [(k, v)] := mapSet_eq_append acc k v hk
    have hnodup : (storeKeys (acc ++ [(k, v)]) ++ storeKeys rest).Nodup := by
      rw [storeKeys_snoc]
      have : storeKeys acc ++ [k] ++ storeKeys rest
          = storeKeys acc ++ (k :: storeKeys rest) := by
        simp
      rw [this]
      exact h'
    calc (rest).foldl (fun a p => mapSet a p.1 p.2) (mapSet acc k v)
        = (rest).foldl (fun a p => mapSet a p.1 p.2) (acc ++ [(k, v)]) := by
          rw [hstep]
      _ = (acc ++ [(k, v)]) ++ rest := ih _ hnodup
      _ = acc ++ (k, v) :: rest := by simp

theorem newMapOfEntries_eq_self (m : Store) (h : nodupKeys m) :
    newMapOfEntries m = m := by
  unfold newMapOfEntries
  have := foldl_mapSet_eq_append m [] (by simpa [storeKeys, nodupKeys] using h)
  simpa using this

theorem nodupKeys_queryClassDefinitions (caps : List Capture)
    (g f : String) (m : Store) (h : nodupKeys m) :
    nodupKeys (queryClassDefinitions caps g f m) := by
  unfold queryClassDefinitions
  cases findCapture "namespace" caps with
  | none => exact h
  | some nc =>
    cases findCapture "classname" caps with
    | none => exact h
    | some cc =>
      by_cases hg : nc.text = "" ∨ cc.text = "" <;>
        simp [hg, h, nodupKeys_mapSet]

theorem nodupKeys_queryFrontendDefinitions (caps : List Capture)
    (g f : String) (m : Store) (h : nodupKeys m) :
    nodupKeys (queryFrontendDefinitions caps g f m) := by
  unfold queryFrontendDefinitions
  exact nodupKeys_mapSet _ _ _ h

theorem scanGo_ok_nodup (files : List ScannedFile) :
    ∀ (acc : Store) (php fe : Nat) (store : Store) (p q : Nat),
      nodupKeys acc → scanGo files acc php fe = ScanOutcome.ok store p q →
      nodupKeys store := by
  induction files with
  | nil =>
    intro acc php fe store p q hacc heq
    simp [scanGo] at heq
    exact heq.1 ▸ hacc
  | cons f rest ih =>
    intro acc php fe store p q hacc heq
    by_cases hr : f.readOk = false
    · exact ih _ _ _ _ _ _ hacc (by simpa [scanGo, hr] using heq)
    · by_cases hphp : f.ext = ".php"
      · cases hp : f.parseResult with
        | none => simp [scanGo, hr, hphp, hp] at heq
        | some caps =>
          exact ih _ _ _ _ _ _
            (nodupKeys_queryClassDefinitions caps f.globPath f.fullPath acc hacc)
            (by simpa [scanGo, hr, hphp, hp] using heq)
      · by_cases hjs : f.ext = ".js" ∨ f.ext = ".ts"
        · cases hp : f.parseResult with
          | none => simp [scanGo, hr, hphp, hjs, hp] at heq
          | some caps =>
            exact ih _ _ _ _ _ _
              (nodupKeys_queryFrontendDefinitions caps f.globPath f.fullPath acc hacc)
              (by simpa [scanGo, hr, hphp, hjs, hp] using heq)
        · exact ih _ _ _ _ _ _ hacc (by simpa [scanGo, hr, hphp, hjs] using heq)

/-! ### Laws of the stable-sort model -/

theorem insertStable_perm {α : Type} (le : α → α → Bool) (x : α) (l : List α) :
    (insertStable le x l).Perm (x :: l) := by
  induction l with
  | nil => exact List.Perm.refl _
  | cons y ys ih =>
    by_cases h : le y x = true
    · simp only [insertStable, if_pos h]
      exact (ih.cons y).trans (List.Perm.swap x y ys)
    · simp only [insertStable, if_neg h]
      exact List.Perm.refl _

theorem sortBy_perm {α : Type} (le : α → α → Bool) (l : List α) :
    (sortBy le l).Perm l := by
  suffices h : ∀ (l acc : List α),
      (l.foldl (fun a x => insertStable le x a) acc).Perm (acc ++ l) by
    simpa [sortBy] using h l []
  intro l
  induction l with
  | nil => intro acc; simp
  | cons x xs ih =>
    intro acc
    simp only [List.foldl_cons]
    have h1 := ih (insertStable le x acc)
    have h2 : (insertStable le x acc ++ xs).Perm ((x :: acc) ++ xs) :=
      (insertStable_perm le x acc).append_right xs
    have h3 : ((x :: acc) ++ xs).Perm (acc ++ x :: xs) := List.perm_middle.symm
    exact (h1.trans h2).trans h3

theorem pairwise_insertStable {α : Type} (le : α → α → Bool)
    (htrans : ∀ a b c, le a b = true → le b c = true → le a c = true)
    (htot : ∀ a b, le a b = true ∨ le b a = true)
    (x : α) (l : List α) (h : l.Pairwise (fun a b => le a b = true)) :
    (insertStable le x l).Pairwise (fun a b => le a b = true) := by
  induction l with
  | nil => simp [insertStable]
  | cons y ys ih =>
    rcases List.pairwise_cons.mp h with ⟨hy, hys⟩
    by_cases hle : le y x = true
    · simp only [insertStable, if_pos hle]
      refine List.pairwise_cons.mpr ⟨?_, ih hys⟩
      intro z hz
      have hz' := (insertStable_perm le x ys).mem_iff.mp hz
      rcases List.mem_cons.mp hz' with rfl | hm
      · exact hle
      · exact hy z hm
    · simp only [insertStable, if_neg hle]
      have hxy : le x y = true := (htot x y).resolve_right fun hh => hle hh
      refine List.pairwise_cons.mpr ⟨?_, h⟩
      intro z hz
      rcases List.mem_cons.mp hz with rfl | hm
      · exact hxy
      · exact htrans x y z hxy (hy z hm)

theorem pairwise_sortBy {α : Type} (le : α → α → Bool)
    (htrans : ∀ a b c, le a b = true → le b c = true → le a c = true)
    (htot : ∀ a b, le a b = true ∨ le b a = true) (l : List α) :
    (sortBy le l).Pairwise (fun a b => le a b = true) := by
  suffices h : ∀ (l acc : List α), acc.Pairwise (fun a b => le a b = true) →
      (l.foldl (fun a x => insertStable le x a) acc).Pairwise
        (fun a b => le a b = true) by
    exact h l [] (List.Pairwise.nil)
  intro l
  induction l with
  | nil => intro acc hacc; simpa using hacc
  | cons x xs ih =>
    intro acc hacc
    exact ih _ (pairwise_insertStable le htrans htot x acc hacc)

/-! ### Laws of the domain-bucket grouping -/

theorem sum_pushBucket (acc : List (DomainVal × List String)) (d : DomainVal)
    (k : String) :
    ((pushBucket acc d k).map (fun b => b.2.length)).sum
      = ((acc.map (fun b => b.2.length)).sum) + 1 := by
  induction acc with
  | nil => simp [pushBucket]
  | cons p rest ih =>
    obtain ⟨d', ks⟩ := p
    by_cases h : d' = d
    · simp [pushBucket, h]
      omega
    · simp [pushBucket, h, ih]
      omega

theorem sum_groupByDomain (m : Store) :
    ((groupByDomain m).map (fun b => b.2.length)).sum = m.length := by
  suffices h : ∀ (m : Store) (acc : List (DomainVal × List String)),
      ((m.foldl (fun a p => pushBucket a p.2.domain p.1) acc).map
          (fun b => b.2.length)).sum
        = ((acc.map (fun b => b.2.length)).sum) + m.length by
    simpa [groupByDomain] using h m []
  intro m
  induction m with
  | nil => intro acc; simp
  | cons p rest ih =>
    intro acc
    rw [List.foldl_cons, ih, sum_pushBucket, List.length_cons]
    omega

theorem sum_domainBuckets (m : Store) :
    ((domainBuckets m).map (fun b => b.2.length)).sum = m.length := by
  unfold domainBuckets
  have hperm : ((sortBy bucketLe (groupByDomain m)).map (fun b => b.2.length)).Perm
      ((groupByDomain m).map (fun b => b.2.length)) :=
    (sortBy_perm bucketLe (groupByDomain m)).map _
  rw [hperm.sum_eq, sum_groupByDomain]

/-! ### `findSome?` order lemmas (frontend domain extraction) -/

theorem findSome?_append_of_none {α β : Type} (f : α → Option β)
    (pre l : List α) (h : ∀ x ∈ pre, f x = none) :
    (pre ++ l).findSome? f = l.findSome? f := by
  induction pre with
  | nil => simp
  | cons x xs ih =>
    have hx : f x = none := h x (List.mem_cons_self _ _)
    simp only [List.cons_append, List.findSome?_cons, hx]
    exact ih (fun y hy => h y (List.mem_cons_of_mem _ hy))

theorem findSome?_of_all_none {α β : Type} (f : α → Option β) (l : List α)
    (h : ∀ x ∈ l, f x = none) : l.findSome? f = none := by
  induction l with
  | nil => simp
  | cons x xs ih =>
    have hx : f x = none := h x (List.mem_cons_self _ _)
    simp only [List.findSome?_cons, hx]
    exact ih (fun y hy => h y (List.mem_cons_of_mem _ hy))

/-! ### Fatal-abort law of the scan loop -/

theorem scanGo_fatal_of_parse_failure (pre : List ScannedFile)
    (f : ScannedFile) (rest : List ScannedFile)
    (hpre : ∀ g ∈ pre, survivesScan g)
    (hread : f.readOk = true)
    (hext : f.ext = ".php" ∨ f.ext = ".js" ∨ f.ext = ".ts")
    (hparse : f.parseResult = none) :
    ∀ (acc : Store) (php fe : Nat),
      scanGo (pre ++ f :: rest) acc php fe = ScanOutcome.fatal f.fullPath 1 := by
  induction pre with
  | nil =>
    intro acc php fe
    rcases hext with h | h | h
    · simp [scanGo, hread, h, hparse]
    · have hphp : ¬(f.ext = ".php") := by rw [h]; decide
      simp [scanGo, hread, hphp, h, hparse]
    · have hphp : ¬(f.ext = ".php") := by rw [h]; decide
      simp [scanGo, hread, hphp, h, hparse]
  | cons g gs ih =>
    intro acc php fe
    have hg : survivesScan g := hpre g (List.mem_cons_self _ _)
    have ih' := ih (fun x hx => hpre x (List.mem_cons_of_mem _ hx))
    by_cases hr : g.readOk = false
    · simpa [scanGo, hr] using ih' acc php fe
    · have hr' : g.readOk = true := by
        cases hg2 : g.readOk
        · exact absurd hg2 hr
        · rfl
      by_cases hphp : g.ext = ".php"
      · cases hp : g.parseResult with
        | none => exact absurd (hg hr' (Or.inl hphp)) (fun hc => hc hp)
        | some caps =>
          simpa [scanGo, hr, hphp, hp] using ih' _ _ _
      · by_cases hjs : g.ext = ".js" ∨ g.ext = ".ts"
        · cases hp : g.parseResult with
          | none => exact absurd (hg hr' (Or.inr hjs)) (fun hc => hc hp)
          | some caps =>
            simpa [scanGo, hr, hphp, hjs, hp] using ih' _ _ _
        · simpa [scanGo, hr, hphp, hjs] using ih' acc php fe

theorem sum_map_div_rat (l : List ℚ) (q : ℚ) :
    (l.map (fun x => x / q)).sum = l.sum / q := by
  induction l with
  | nil => simp
  | cons x xs ih =>
    simp only [List.map_cons, List.sum_cons, ih]
    rw [add_div]

theorem sum_map_natcast {α : Type} (f : α → Nat) (l : List α) :
    (l.map (fun b => ((f b : Nat) : ℚ))).sum = ((l.map f).sum : ℚ) := by
  induction l with
  | nil => simp
  | cons x xs ih =>
    simp only [List.map_cons, List.sum_cons, ih]
    push_cast
    ring

/-! ### Claim theorems -/

/-- Claim C1: when the fixed cache path holds a parseable envelope,
`getClassData` returns the previously stored Fact Store unchanged, performs
no scan and no cache save, and reads zero source files; a scan happens only
when the cache load fails. -/
theorem cache_hit_short_circuits_scan (fsys : FileSys)
    (files : List ScannedFile) (env : Envelope) (store : Store)
    (hcache : fsys.cacheFile = some (some env))
    (henv : env = saveCache store) (hnodup : nodupKeys store) :
    getClassData fsys files
        = { result := some store, exitCode := none, didScan := false,
            didSave := false, filesRead := 0 }
      ∧ ∀ (fsys' : FileSys) (files' : List ScannedFile),
          (getClassData fsys' files').didScan = true → loadCache fsys' = none := by
  constructor
  · have hload : loadCache fsys = some store := by
      simp [loadCache, hcache, henv, saveCache,
        newMapOfEntries_eq_self store hnodup]
    simp [getClassData, hload]
  · intro fsys' files' hscan
    cases hl : loadCache fsys' with
    | none => rfl
    | some s =>
      unfold getClassData at hscan
      rw [hl] at hscan
      simp at hscan

/-- Witness for C1 at a concrete cache file and file list. -/
theorem cache_hit_short_circuits_scan_witness :
    exFileSysHit.cacheFile = some (some (saveCache exStoreCache))
      ∧ nodupKeys exStoreCache
      ∧ getClassData exFileSysHit [exPhpFile]
          = { result := some exStoreCache, exitCode := none, didScan := false,
              didSave := false, filesRead := 0 } :=
  ⟨rfl, by decide,
    (cache_hit_short_circuits_scan exFileSysHit [exPhpFile]
      (saveCache exStoreCache) exStoreCache rfl rfl (by decide)).1⟩

/-- Claim C2: serializing a Fact Store with `saveCache` and deserializing
the written envelope with `loadCache` yields back the identical store —
same key set, same field values for every record (here: the very same
entries list). -/
theorem cache_round_trip (m : Store) (h : nodupKeys m) :
    loadCache ⟨some (some (saveCache m))⟩ = some m := by
  simp [loadCache, saveCache, newMapOfEntries_eq_self m h]

/-- Witness for C2 at a concrete two-record store. -/
theorem cache_round_trip_witness :
    nodupKeys exStoreCache
      ∧ loadCache ⟨some (some (saveCache exStoreCache))⟩ = some exStoreCache :=
  ⟨by decide, cache_round_trip exStoreCache (by decide)⟩

/-- Claim C3: a Fact Store built by any scan has no duplicate
`qualifiedKey`, and inserting under an existing key replaces the prior
record entirely (insert A then B under one key ≡ inserting just B; from an
empty map, exactly `[(k, B)]` remains). -/
theorem qualified_key_unique_last_write_wins :
    (∀ (files : List ScannedFile) (store : Store) (php fe : Nat),
        scan files = ScanOutcome.ok store php fe → nodupKeys store)
      ∧ (∀ (m : Store) (k : String) (a b : ClassInfo),
          mapSet (mapSet m k a) k b = mapSet m k b)
      ∧ (∀ (m : Store) (k : String) (a b : ClassInfo),
          mapGet (mapSet (mapSet m k a) k b) k = some b)
      ∧ (∀ (k : String) (a b : ClassInfo),
          mapSet (mapSet [] k a) k b = [(k, b)]) := by
  refine ⟨?_, ?_, ?_, ?_⟩
  · intro files store php fe h
    exact scanGo_ok_nodup files [] 0 0 store php fe
      (by simp [nodupKeys, storeKeys]) h
  · intro m k a b
    exact mapSet_mapSet_same m k a b
  · intro m k a b
    rw [mapSet_mapSet_same]
    exact mapGet_mapSet_self m k b
  · intro k a b
    simp [mapSet]

/-- Witness for C3: the store produced by a concrete one-file scan has
unique keys. -/
theorem qualified_key_unique_last_write_wins_witness :
    scan [exPhpFile] = ScanOutcome.ok
        [("App\\Core\\Kernel",
          ⟨true, some false, some "App\\Core", some "Kernel", "Kernel.php",
            DomainVal.undef⟩)] 1 0
      ∧ nodupKeys
          [("App\\Core\\Kernel",
            ⟨true, some false, some "App\\Core", some "Kernel", "Kernel.php",
              DomainVal.undef⟩)] :=
  ⟨by decide,
    qualified_key_unique_last_write_wins.1 [exPhpFile] _ 1 0 (by decide)⟩

/-- Claim C4: when the namespace capture or the class-name capture is
absent, the class-based extractor inserts nothing — the store is returned
untouched. -/
theorem class_extractor_requires_namespace_and_classname
    (caps : List Capture) (g f : String) (m : Store)
    (h : findCapture "namespace" caps = none
      ∨ findCapture "classname" caps = none) :
    queryClassDefinitions caps g f m = m := by
  rcases h with h | h
  · cases h2 : findCapture "classname" caps <;>
      simp [queryClassDefinitions, h, h2]
  · cases h2 : findCapture "namespace" caps <;>
      simp [queryClassDefinitions, h, h2]

/-- Witness for C4 at a capture multiset lacking a namespace. -/
theorem class_extractor_requires_namespace_and_classname_witness :
    findCapture "namespace" exCapsNoNs = none
      ∧ queryClassDefinitions exCapsNoNs "Helper.php" "/repo/Helper.php" [] = [] :=
  ⟨by decide,
    class_extractor_requires_namespace_and_classname exCapsNoNs
      "Helper.php" "/repo/Helper.php" [] (Or.inl (by decide))⟩

/-- Claim C5: for a unit with both namespace and class-name captures, a
record is produced under `namespace\className` whose `domain` is the first
`package` capture's text when present and `undefined` when absent (a record
is produced either way). -/
theorem class_extractor_domain_from_package
    (caps : List Capture) (g f : String) (m : Store) (nc cc : Capture)
    (hns : findCapture "namespace" caps = some nc) (hns2 : nc.text ≠ "")
    (hcl : findCapture "classname" caps = some cc) (hcl2 : cc.text ≠ "") :
    ∃ r, mapGet (queryClassDefinitions caps g f m)
          (nc.text ++ "\\" ++ cc.text) = some r
      ∧ (∀ p, findCapture "package" caps = some p →
          r.domain = DomainVal.str p.text)
      ∧ (findCapture "package" caps = none → r.domain = DomainVal.undef) := by
  have hguard : ¬(nc.text = "" ∨ cc.text = "") := by
    rintro (h | h)
    · exact hns2 h
    · exact hcl2 h
  simp only [queryClassDefinitions, hns, hcl, if_neg hguard]
  refine ⟨_, mapGet_mapSet_self m _ _, ?_, ?_⟩
  · intro p hp
    simp [hp]
  · intro hp
    simp [hp]

/-- Witness for C5 at a capture multiset carrying a `Package` argument. -/
theorem class_extractor_domain_from_package_witness :
    findCapture "namespace" exCapsPkg = some ⟨"namespace", "App\\Svc"⟩
      ∧ findCapture "package" exCapsPkg = some ⟨"package", "checkout"⟩
      ∧ ∃ r, mapGet (queryClassDefinitions exCapsPkg "Order.php"
            "/repo/Order.php" []) ("App\\Svc" ++ "\\" ++ "Order") = some r
          ∧ (∀ p, findCapture "package" exCapsPkg = some p →
              r.domain = DomainVal.str p.text)
          ∧ (findCapture "package" exCapsPkg = none →
              r.domain = DomainVal.undef) :=
  ⟨by decide, by decide,
    class_extractor_domain_from_package exCapsPkg "Order.php" "/repo/Order.php"
      [] ⟨"namespace", "App\\Svc"⟩ ⟨"classname", "Order"⟩
      (by decide) (by decide) (by decide) (by decide)⟩

/-- Claim C6 counterexample: at scan root `/repo` with relative path
`app.js`, the scripting extractor keys the record by the joined full path
`/repo/app.js`, while the record's `fileName` is the scan-relative `app.js`
— so the claim "its qualifiedKey equals the record's fileName" fails
(`scanFiles` passes `callback(p, fullPath, data)` and
`queryFrontendDefinitions` does `resultMap.set(filePath, {fileName:
globPath, ...})`). -/
theorem frontend_key_not_fileName_counterexample :
    scan [exFrontFile]
        = ScanOutcome.ok
            [("/repo/app.js",
              ⟨false, none, none, none, "app.js", DomainVal.str "storefront"⟩)]
            0 1
      ∧ ("/repo/app.js" : String) ≠ "app.js" :=
  ⟨by decide, by decide⟩

/-- Claim C6 as amended: the scripting extractor inserts exactly one record,
keyed by the full path (scan root joined with the relative path); the
record's `fileName` is the scan-relative path, `namespace`/`className`/
`isFinal` are null, and `domain` is group 1 of the first top-level comment
matching the `@sw-package` marker, in comment order, else null. -/
theorem frontend_extractor_record_shape
    (caps : List Capture) (g f : String) (m : Store) :
    ∃ r, mapGet (queryFrontendDefinitions caps g f m) f = some r
      ∧ r.nsName = none ∧ r.className = none ∧ r.isFinal = none
      ∧ r.fileName = g
      ∧ (∀ k, k ≠ f →
          mapGet (queryFrontendDefinitions caps g f m) k = mapGet m k)
      ∧ (mapGet m f = none →
          (queryFrontendDefinitions caps g f m).length = m.length + 1)
      ∧ ((∀ c ∈ caps.filter (fun c => c.name == "comment"),
            matchSwPackage c.text = none) → r.domain = DomainVal.null)
      ∧ (∀ (pre : List Capture) (c : Capture) (post : List Capture)
            (s : String),
          caps.filter (fun c => c.name == "comment") = pre ++ c :: post →
          matchSwPackage c.text = some s →
          (∀ c' ∈ pre, matchSwPackage c'.text = none) →
          r.domain = (if s = "" then DomainVal.null else DomainVal.str s)) := by
  simp only [queryFrontendDefinitions]
  refine ⟨_, mapGet_mapSet_self m f _, rfl, rfl, rfl, rfl, ?_, ?_, ?_, ?_⟩
  · intro k hk
    exact mapGet_mapSet_ne m f k _ hk
  · intro h
    exact length_mapSet_of_not_mem m f _ h
  · intro h
    simp [findSome?_of_all_none _ _ h]
  · intro pre c post s hsplit hc hpre
    rw [hsplit, findSome?_append_of_none _ pre _ hpre]
    simp [List.findSome?_cons, hc]

/-- Witness for C6 (amended) at a concrete frontend file. -/
theorem frontend_extractor_record_shape_witness :
    mapGet (queryFrontendDefinitions exFrontCaps "app.js" "/repo/app.js" [])
        "/repo/app.js"
      = some ⟨false, none, none, none, "app.js", DomainVal.str "storefront"⟩
      ∧ ∃ r, mapGet (queryFrontendDefinitions exFrontCaps "app.js"
            "/repo/app.js" []) "/repo/app.js" = some r
          ∧ r.nsName = none ∧ r.className = none ∧ r.isFinal = none
          ∧ r.fileName = "app.js" := by
  refine ⟨by decide, ?_⟩
  obtain ⟨r, h1, h2, h3, h4, h5, -⟩ :=
    frontend_extractor_record_shape exFrontCaps "app.js" "/repo/app.js" []
  exact ⟨r, h1, h2, h3, h4, h5⟩

/-- Claim C7 counterexample: a store holding one class-based record without
a `Package` attribute (`domain` undefined) and one scripting record without
an `@sw-package` marker (`domain` null) yields TWO buckets, both rendered
"unknown" — not one explicit "unknown" bucket — because the reduce keys
buckets by the raw domain value and `undefined` and `null` are distinct
`Map` keys; moreover no percentage is computed anywhere. -/
theorem domain_buckets_double_unknown_counterexample :
    ((domainBuckets exStoreMixed).map (fun b => (domainLabel b.1, b.2.length)))
        = [("unknown", 1), ("unknown", 1)]
      ∧ ¬ ((domainBuckets exStoreMixed).map (fun b => domainLabel b.1)).Nodup :=
  ⟨by decide, by decide⟩

/-- Claim C7 as amended: `domainBuckets` groups records by raw domain value
(so the two absent-domain flavours form separate buckets, each labelled
"unknown" only at render time), yields (domain, key-list) pairs sorted by
descending count; it computes no percentage, but bucket counts sum to the
store's size, so the derived fractions count/total sum to 1 for a non-empty
store. -/
theorem domain_buckets_sorted_counts (m : Store) (hne : m ≠ []) :
    (domainBuckets m).Pairwise (fun a b => b.2.length ≤ a.2.length)
      ∧ ((domainBuckets m).map (fun b => b.2.length)).sum = m.length
      ∧ ((domainBuckets m).map
            (fun b => (b.2.length : ℚ) / (m.length : ℚ))).sum = 1 := by
  refine ⟨?_, sum_domainBuckets m, ?_⟩
  · have htrans : ∀ a b c : DomainVal × List String,
        bucketLe a b = true → bucketLe b c = true → bucketLe a c = true := by
      intro a b c hab hbc
      simp [bucketLe] at hab hbc ⊢
      omega
    have htot : ∀ a b : DomainVal × List String,
        bucketLe a b = true ∨ bucketLe b a = true := by
      intro a b
      simp [bucketLe]
      omega
    have h := pairwise_sortBy bucketLe htrans htot (groupByDomain m)
    refine h.imp ?_
    intro a b hab
    simpa [bucketLe] using hab
  · have hmap : (domainBuckets m).map
        (fun b => (b.2.length : ℚ) / (m.length : ℚ))
        = ((domainBuckets m).map (fun b => (b.2.length : ℚ))).map
            (fun x => x / (m.length : ℚ)) := by
      rw [List.map_map]
      rfl
    have hcast := sum_map_natcast (fun b : DomainVal × List String => b.2.length)
      (domainBuckets m)
    have hlen : (m.length : ℚ) ≠ 0 := by
      have : m.length ≠ 0 := by
        cases m with
        | nil => exact absurd rfl hne
        | cons p rest => simp
      exact_mod_cast this
    rw [hmap, sum_map_div_rat, hcast, sum_domainBuckets]
    exact div_self hlen

/-- Witness for C7 (amended) at a concrete mixed store. -/
theorem domain_buckets_sorted_counts_witness :
    exStoreMixed ≠ []
      ∧ ((domainBuckets exStoreMixed).Pairwise
            (fun a b => b.2.length ≤ a.2.length)
        ∧ ((domainBuckets exStoreMixed).map (fun b => b.2.length)).sum
            = exStoreMixed.length
        ∧ ((domainBuckets exStoreMixed).map
              (fun b => (b.2.length : ℚ) / (exStoreMixed.length : ℚ))).sum
            = 1) :=
  ⟨by decide, domain_buckets_sorted_counts exStoreMixed (by decide)⟩

/-- Claim C8 (code bug, evaluated): the full-listing comparator is
`(a, b) => b[1].namespace - a[1].namespace`, a numeric subtraction of
strings; for non-numeric namespaces it yields NaN, which ECMAScript
`SortCompare` treats as +0, so the stable sort leaves the listing in store
insertion order — here `Beta` stays before `Alpha`, not the case-insensitive
lexical order the spec describes (the intent documented by the source's
"sort by namespace" comment). -/
theorem namespace_sort_is_noop_eval :
    classesSortedByNamespace exStoreBA = exStoreBA
      ∧ (classesSortedByNamespace exStoreBA).map (fun p => p.2.nsName)
          = [some "Beta", some "Alpha"]
      ∧ classesSortedByNamespace exStoreBA
          ≠ [("Alpha\\Y", exInfoAlpha), ("Beta\\X", exInfoBeta)] :=
  ⟨by decide, by decide, by decide⟩

/-- Claim C9: for a unit producing a record, `isFinal` is true iff a
`finalkeyword` capture exists or some `comment` capture's text contains the
`@final` marker. -/
theorem is_final_keyword_or_comment
    (caps : List Capture) (g f : String) (m : Store) (nc cc : Capture)
    (hns : findCapture "namespace" caps = some nc) (hns2 : nc.text ≠ "")
    (hcl : findCapture "classname" caps = some cc) (hcl2 : cc.text ≠ "") :
    ∃ r, mapGet (queryClassDefinitions caps g f m)
          (nc.text ++ "\\" ++ cc.text) = some r
      ∧ (r.isFinal = some true ↔
          ((∃ c ∈ caps, c.name = "finalkeyword")
            ∨ (∃ c ∈ caps, c.name = "comment"
                ∧ strIncludes c.text "@final" = true))) := by
  have hguard : ¬(nc.text = "" ∨ cc.text = "") := by
    rintro (h | h)
    · exact hns2 h
    · exact hcl2 h
  simp only [queryClassDefinitions, hns, hcl, if_neg hguard]
  refine ⟨_, mapGet_mapSet_self m _ _, ?_⟩
  simp only [Option.some_inj, Bool.or_eq_true]
  rw [Bool.eq_iff_iff]
  simp [findCapture, List.find?_isSome, List.any_eq_true, List.mem_filter,
    and_assoc]

/-- Witness for C9 at a capture multiset with an `@final` comment and no
structural keyword. -/
theorem is_final_keyword_or_comment_witness :
    findCapture "namespace" exCapsFinal = some ⟨"namespace", "App\\Svc"⟩
      ∧ ∃ r, mapGet (queryClassDefinitions exCapsFinal "Order.php"
            "/repo/Order.php" []) ("App\\Svc" ++ "\\" ++ "Order") = some r
          ∧ (r.isFinal = some true ↔
              ((∃ c ∈ exCapsFinal, c.name = "finalkeyword")
                ∨ (∃ c ∈ exCapsFinal, c.name = "comment"
                    ∧ strIncludes c.text "@final" = true))) :=
  ⟨by decide,
    is_final_keyword_or_comment exCapsFinal "Order.php" "/repo/Order.php" []
      ⟨"namespace", "App\\Svc"⟩ ⟨"classname", "Order"⟩
      (by decide) (by decide) (by decide) (by decide)⟩

/-- Claim C10: if every file before `f` passes through the scan loop and
`f` is a readable recognized-dialect file whose parse throws, the whole run
aborts with `f`'s path and exit code 1 — no completed store exists, i.e. no
per-file skip-and-continue for parse failures. -/
theorem parse_failure_aborts_run (pre : List ScannedFile) (f : ScannedFile)
    (rest : List ScannedFile) (hpre : ∀ g ∈ pre, survivesScan g)
    (hread : f.readOk = true)
    (hext : f.ext = ".php" ∨ f.ext = ".js" ∨ f.ext = ".ts")
    (hparse : f.parseResult = none) :
    scan (pre ++ f :: rest) = ScanOutcome.fatal f.fullPath 1
      ∧ (∀ (store : Store) (php fe : Nat),
          scan (pre ++ f :: rest) ≠ ScanOutcome.ok store php fe)
      ∧ (1 : Nat) ≠ 0 := by
  have h := scanGo_fatal_of_parse_failure pre f rest hpre hread hext hparse
    [] 0 0
  refine ⟨h, ?_, by decide⟩
  intro store php fe hc
  unfold scan at hc
  rw [h] at hc
  exact ScanOutcome.noConfusion hc

/-- Witness for C10: one healthy PHP file, then a `.ts` file whose parse
throws, then one more file that is never reached. -/
theorem parse_failure_aborts_run_witness :
    (∀ g ∈ [exPhpFile], survivesScan g)
      ∧ exBadTsFile.readOk = true
      ∧ exBadTsFile.parseResult = none
      ∧ scan ([exPhpFile] ++ exBadTsFile :: [exFrontFile])
          = ScanOutcome.fatal "/repo/broken.ts" 1 :=
  ⟨by decide, rfl, rfl,
    (parse_failure_aborts_run [exPhpFile] exBadTsFile [exFrontFile]
      (by decide) rfl (Or.inr (Or.inr rfl)) rfl).1⟩

end SwScan
